import Mathlib

/-!
Verification development for the semantic-search repository.

The repository's one source file is a notebook.  Its only executable search
logic is the function `try_model`, which scores a list of search terms
against a passage embedding and returns the scored terms in descending
order, and the function `do_query`, which sends a KNN query to a hosted
OpenSearch instance.  The embedding models (SentenceTransformer) and the
scoring primitives of `sentence_transformers.util` are external
collaborators and enter the embedding as function parameters.

The specification additionally describes a standalone vector-record store,
metric strategy, index and query engine that have no counterpart in the
source; those operations are modelled from the specification text and each
such definition is marked `Modelled from the spec:` in its doc comment.
-/

namespace SemanticSearch

/-- ASCII fragment of Python's `str.lower` on one character: the code points
65–90 (`A`–`Z`) are shifted by 32, every other character is unchanged.
Exactly this fragment is exercised by the notebook's metric names. -/
def pyLowerChar (c : Char) : Char :=
  if 65 ≤ c.toNat ∧ c.toNat ≤ 90 then Char.ofNat (c.toNat + 32) else c

/-- Python's `match_algo.lower()` (ASCII fragment), applied character-wise. -/
def pyLower (s : String) : String :=
  ⟨s.data.map pyLowerChar⟩

/-- Python's `<` on strings, on the underlying character lists:
lexicographic comparison of code points. -/
def pyLtChars : List Char → List Char → Bool
  | [], [] => false
  | [], _ :: _ => true
  | _ :: _, [] => false
  | a :: as, b :: bs =>
    if a.toNat < b.toNat then true
    else if b.toNat < a.toNat then false
    else pyLtChars as bs

/-- Python's `<` on strings. -/
def pyStrLt (a b : String) : Bool :=
  pyLtChars a.data b.data

/-- Helper of `distinctKeys`: keep the members of the list that are not in
`seen`, first occurrences only, in order. -/
def distinctKeysAux (seen : List String) : List String → List String
  | [] => []
  | t :: ts =>
    if t ∈ seen then distinctKeysAux seen ts
    else t :: distinctKeysAux (t :: seen) ts

/-- Key sequence of the Python dict comprehension
`{q: model.encode(q) for q in search_terms}`: every key keeps the position
of its first occurrence and later duplicates are collapsed into it. -/
def distinctKeys (terms : List String) : List String :=
  distinctKeysAux [] terms

/-- The two match functions `try_model` can select. -/
inductive MatchAlgo
  | dot
  | cosine
  deriving DecidableEq

/-- The notebook raises `ValueError("Invalid Match Function!")` for any
other metric name. -/
inductive NotebookError
  | invalidMatchFunction
  deriving DecidableEq

/-- The `if match_algo.lower() == "dot" ... elif ... == "cosine" ... else raise`
dispatch of `try_model`. -/
def parseMatchAlgo (s : String) : Option MatchAlgo :=
  if pyLower s = "dot" then some MatchAlgo.dot
  else if pyLower s = "cosine" then some MatchAlgo.cosine
  else none

/-- `dot(a,b) = Σ aᵢ·bᵢ`; float vectors are modelled as rational vectors. -/
def dotScore (a b : List ℚ) : ℚ :=
  (List.zipWith (fun x y => x * y) a b).sum

/-- Squared Euclidean norm; `normSq a = 0` exactly when `‖a‖ = 0`. -/
def normSq (a : List ℚ) : ℚ :=
  dotScore a a

/-- The order realised by `sorted(..., reverse=True)` on the
`(score, term)` pairs of `try_model`: `a` may sit before `b` exactly when
`a` is greater than or equal to `b` in the lexicographic order that
compares scores first and terms (by code point) second.  Python's sort is
stable, but the terms of distinct pairs here are distinct dict keys, so
the sorted output is the unique arrangement that is non-increasing in this
order. -/
def resultGe (a b : ℚ × String) : Prop :=
  b.1 < a.1 ∨ (a.1 = b.1 ∧ pyStrLt a.2 b.2 = false)

instance : DecidableRel resultGe := fun a b => by
  unfold resultGe
  infer_instance

/-- Shallow embedding of the notebook's `try_model`.

External collaborators are parameters: `enc` stands for
`SentenceTransformer(mod_name).encode` (text to vector), `psg` for the
already-encoded passage `passage_embedding_1` (the `just_nouns`
preprocessing is part of the external text pipeline), and `dotF`, `cosF`
for `util.dot_score` and `util.pytorch_cos_sim` as score evaluations.

The body mirrors the source: build the dict of distinct search terms,
dispatch on the lowercased metric name (raising for an unknown name),
score every term against the passage and return the pairs sorted in
descending order. -/
def tryModel (dotF cosF : List ℚ → List ℚ → ℚ) (matchAlgo : String)
    (enc : String → List ℚ) (psg : List ℚ) (terms : List String) :
    Except NotebookError (List (ℚ × String)) :=
  match parseMatchAlgo matchAlgo with
  | none => Except.error NotebookError.invalidMatchFunction
  | some a =>
    let matchFunc := match a with
      | MatchAlgo.dot => dotF
      | MatchAlgo.cosine => cosF
    Except.ok (List.insertionSort resultGe
      ((distinctKeys terms).map (fun t => (matchFunc (enc t) psg, t))))

/-- Error taxonomy of the specification's metric strategy. -/
inductive MetricError
  | degenerateVector
  deriving DecidableEq

/-- The dot metric as a fallible scorer: it is total and never fails,
also on zero vectors. -/
def dotScoreE (a b : List ℚ) : Except MetricError ℚ :=
  Except.ok (dotScore a b)

/-- Modelled from the spec: `cosine(a,b) = dot(a,b) / (‖a‖·‖b‖)` with a
zero-norm argument a dedicated `DegenerateVector` error, never a silent
`0` or `NaN`.  The notebook itself delegates cosine scoring to the
external `util.pytorch_cos_sim`, which is not part of this repository.
Zero norm is expressed as `normSq = 0`, equivalent for rational vectors. -/
noncomputable def cosineScore (a b : List ℚ) : Except MetricError ℝ :=
  if normSq a = 0 ∨ normSq b = 0 then Except.error MetricError.degenerateVector
  else Except.ok ((dotScore a b : ℝ) / (Real.sqrt (normSq a) * Real.sqrt (normSq b)))

/-- A stored record: identifier, vector and opaque payload. -/
structure VectorRecord where
  rid : String
  vec : List ℚ
  payload : String
  deriving DecidableEq

/-- Error taxonomy of the specification's engine (§7). -/
inductive EngineError
  | dimensionMismatch
  | duplicateId
  | notFound
  | degenerateVector
  | invalidK
  | metricMismatch
  | indexUnavailable
  deriving DecidableEq

/-- Modelled from the spec: the engine state — the record store together
with the per-instance configuration (metric and dimensionality) fixed at
construction.  The approximate index's adjacency structure is described
only by the specification; the store's record list is the source of truth
it is rebuilt from, so queries are specified against the records. -/
structure Engine where
  metric : MatchAlgo
  dim : ℕ
  records : List VectorRecord
  deriving DecidableEq

/-- One entry of a ranked query result. -/
structure ResultEntry where
  rid : String
  score : ℚ
  payload : String
  deriving DecidableEq

/-- Modelled from the spec: `insert(id, vector, payload)` — rejects a
vector of the wrong dimensionality and a duplicate identifier, otherwise
appends the record. -/
def insert (e : Engine) (i : String) (v : List ℚ) (p : String) :
    Except EngineError Engine :=
  if v.length ≠ e.dim then Except.error EngineError.dimensionMismatch
  else if (e.records.map VectorRecord.rid).contains i then Except.error EngineError.duplicateId
  else Except.ok { e with records := e.records ++ [⟨i, v, p⟩] }

/-- The stable descending-by-score order of the reference top-K sort:
ties keep store (insertion) order, realised by a stable sort with this
reflexive comparison. -/
def scoreGe (a b : ResultEntry) : Prop :=
  b.score ≤ a.score

instance : DecidableRel scoreGe := fun a b => by
  unfold scoreGe
  infer_instance

/-- Modelled from the spec: the validated part of
`query(vector, k, metric_override) -> QueryResult` (§4.5) — check
`k ≥ 1` (else `InvalidK`) and the dimensionality (else
`DimensionMismatch`), then score every stored record with the engine's
metric evaluation `sc`, sort descending with ties in insertion order, and
return the best `k` together with the unchanged engine state. -/
def queryRun (sc : List ℚ → List ℚ → ℚ) (e : Engine) (v : List ℚ) (k : ℕ) :
    Except EngineError (List ResultEntry × Engine) :=
  if k < 1 then Except.error EngineError.invalidK
  else if v.length ≠ e.dim then Except.error EngineError.dimensionMismatch
  else Except.ok
    ((List.insertionSort scoreGe
      (e.records.map (fun r => ⟨r.rid, sc r.vec v, r.payload⟩))).take k, e)

/-- Modelled from the spec: the full query operation.  The metric is fixed
per engine instance; a query that names a different metric is disallowed
and fails fast with an error before any validation or scoring (§4.1,
§4.5). -/
def query (sc : List ℚ → List ℚ → ℚ) (e : Engine) (v : List ℚ) (k : ℕ)
    (mOverride : Option MatchAlgo) :
    Except EngineError (List ResultEntry × Engine) :=
  match mOverride with
  | some m =>
    if m ≠ e.metric then Except.error EngineError.metricMismatch
    else queryRun sc e v k
  | none => queryRun sc e v k

/-- Equality of `Except` results is decidable; needed to evaluate the
embedded operations on concrete inputs. -/
instance exceptDecEq {ε α : Type} [DecidableEq ε] [DecidableEq α] :
    DecidableEq (Except ε α) := fun a b =>
  match a, b with
  | Except.error x, Except.error y =>
    if h : x = y then isTrue (by rw [h]) else isFalse (by intro hc; cases hc; exact h rfl)
  | Except.error _, Except.ok _ => isFalse (by intro hc; cases hc)
  | Except.ok _, Except.error _ => isFalse (by intro hc; cases hc)
  | Except.ok x, Except.ok y =>
    if h : x = y then isTrue (by rw [h]) else isFalse (by intro hc; cases hc; exact h rfl)

/-- The ordering property claim C1 asserts for a result sequence: strictly
descending by score, and whenever two entries have exactly equal scores the
term that occurs earlier in the input list is placed first. -/
def insertionTieOrdered (terms : List String) (res : List (ℚ × String)) : Prop :=
  res.Pairwise (fun a b =>
    b.1 < a.1 ∨ (a.1 = b.1 ∧ terms.indexOf a.2 < terms.indexOf b.2))

/-- The ordering `try_model` actually realises: strictly descending by
score, and entries with exactly equal scores ordered by their term string,
larger code-point sequence first (a consequence of sorting the
`(score, term)` tuples themselves in reverse). -/
def strictDescTermTies (a b : ℚ × String) : Prop :=
  b.1 < a.1 ∨ (a.1 = b.1 ∧ pyStrLt b.2 a.2 = true)

/-! ### Order facts about the code-point comparison -/

theorem toNat_charOfNat_of_isValidChar (n : ℕ) (h : n.isValidChar) :
    (Char.ofNat n).toNat = n := by
  simp [Char.ofNat, h, Char.toNat, Char.ofNatAux, UInt32.toNat, UInt32.ofNat',
    BitVec.toNat_ofNatLt]

theorem pyLowerChar_toNat_not_upper (c : Char) :
    ¬ (65 ≤ (pyLowerChar c).toNat ∧ (pyLowerChar c).toNat ≤ 90) := by
  unfold pyLowerChar
  split
  case isTrue h =>
    have hv : (c.toNat + 32).isValidChar := by
      left
      omega
    rw [toNat_charOfNat_of_isValidChar _ hv]
    omega
  case isFalse h =>
    exact h

theorem pyLowerChar_idem (c : Char) :
    pyLowerChar (pyLowerChar c) = pyLowerChar c := by
  have h := pyLowerChar_toNat_not_upper c
  conv_lhs => rw [pyLowerChar]
  rw [if_neg h]

theorem pyLower_idem (s : String) : pyLower (pyLower s) = pyLower s := by
  unfold pyLower
  simp only [List.map_map]
  congr 1
  exact List.map_congr_left (fun c _ => pyLowerChar_idem c)

theorem pyLtChars_self (l : List Char) : pyLtChars l l = false := by
  induction l with
  | nil => rfl
  | cons a as ih => simp [pyLtChars, ih]

theorem char_eq_of_toNat_eq {a b : Char} (h : a.toNat = b.toNat) : a = b :=
  Char.ext (UInt32.ext h)

theorem eq_of_pyLtChars_false_false :
    ∀ {a b : List Char}, pyLtChars a b = false → pyLtChars b a = false → a = b
  | [], [], _, _ => rfl
  | [], _ :: _, h, _ => by simp [pyLtChars] at h
  | _ :: _, [], _, h => by simp [pyLtChars] at h
  | a :: as, b :: bs, h1, h2 => by
    simp only [pyLtChars] at h1 h2
    by_cases hab : a.toNat < b.toNat
    · rw [if_pos hab] at h1
      exact absurd h1 (by simp)
    · by_cases hba : b.toNat < a.toNat
      · rw [if_pos hba] at h2
        exact absurd h2 (by simp)
      · rw [if_neg hab, if_neg hba] at h1
        rw [if_neg hba, if_neg hab] at h2
        rw [char_eq_of_toNat_eq (show a.toNat = b.toNat by omega),
          eq_of_pyLtChars_false_false h1 h2]

theorem pyLtChars_false_trans (a : List Char) :
    ∀ (b c : List Char), pyLtChars a b = false → pyLtChars b c = false →
      pyLtChars a c = false := by
  induction a with
  | nil =>
    intro b c h1 h2
    cases b with
    | nil =>
      cases c with
      | nil => rfl
      | cons z zs => simp [pyLtChars] at h2
    | cons y ys => simp [pyLtChars] at h1
  | cons x xs ih =>
    intro b c h1 h2
    cases c with
    | nil => rfl
    | cons z zs =>
      cases b with
      | nil => simp [pyLtChars] at h2
      | cons y ys =>
        simp only [pyLtChars] at h1 h2 ⊢
        by_cases hxy : x.toNat < y.toNat
        · rw [if_pos hxy] at h1
          exact absurd h1 (by simp)
        · by_cases hyz : y.toNat < z.toNat
          · rw [if_pos hyz] at h2
            exact absurd h2 (by simp)
          · by_cases hyx : y.toNat < x.toNat
            · have hzx : z.toNat < x.toNat := by omega
              rw [if_neg (show ¬ x.toNat < z.toNat by omega), if_pos hzx]
            · rw [if_neg hxy, if_neg hyx] at h1
              by_cases hzy : z.toNat < y.toNat
              · have hzx : z.toNat < x.toNat := by omega
                rw [if_neg (show ¬ x.toNat < z.toNat by omega), if_pos hzx]
              · rw [if_neg hyz, if_neg hzy] at h2
                rw [if_neg (show ¬ x.toNat < z.toNat by omega),
                  if_neg (show ¬ z.toNat < x.toNat by omega)]
                exact ih ys zs h1 h2

theorem pyLtChars_asymm (a : List Char) :
    ∀ (b : List Char), pyLtChars a b = true → pyLtChars b a = true → False := by
  induction a with
  | nil =>
    intro b h1 h2
    cases b with
    | nil => simp [pyLtChars] at h1
    | cons y ys => simp [pyLtChars] at h2
  | cons x xs ih =>
    intro b h1 h2
    cases b with
    | nil => simp [pyLtChars] at h1
    | cons y ys =>
      simp only [pyLtChars] at h1 h2
      by_cases hxy : x.toNat < y.toNat
      · rw [if_neg (show ¬ y.toNat < x.toNat by omega), if_pos hxy] at h2
        exact absurd h2 (by simp)
      · by_cases hyx : y.toNat < x.toNat
        · rw [if_neg hxy, if_pos hyx] at h1
          exact absurd h1 (by simp)
        · rw [if_neg hxy, if_neg hyx] at h1
          rw [if_neg hyx, if_neg hxy] at h2
          exact ih ys h1 h2

theorem pyLtChars_total (a b : List Char) :
    pyLtChars a b = false ∨ pyLtChars b a = false := by
  by_cases h1 : pyLtChars a b = false
  · exact Or.inl h1
  · refine Or.inr (by_contra fun h2 => ?_)
    exact pyLtChars_asymm a b (by simpa using h1) (by simpa using h2)

/-! ### Facts about the dict-key sequence -/

theorem mem_distinctKeysAux {x : String} :
    ∀ {seen l : List String},
      x ∈ distinctKeysAux seen l ↔ x ∈ l ∧ x ∉ seen := by
  intro seen l
  induction l generalizing seen with
  | nil => simp [distinctKeysAux]
  | cons t ts ih =>
    simp only [distinctKeysAux]
    split_ifs with ht
    · rw [ih]
      constructor
      · rintro ⟨hx, hs⟩
        exact ⟨List.mem_cons_of_mem _ hx, hs⟩
      · rintro ⟨hx, hs⟩
        rcases List.mem_cons.mp hx with rfl | hx
        · exact absurd ht hs
        · exact ⟨hx, hs⟩
    · simp only [List.mem_cons, ih, List.mem_cons, not_or]
      constructor
      · rintro (rfl | ⟨hx, hne, hs⟩)
        · exact ⟨Or.inl rfl, fun hs => ht (by simpa using hs)⟩
        · exact ⟨Or.inr hx, hs⟩
      · rintro ⟨rfl | hx, hs⟩
        · exact Or.inl rfl
        · by_cases hxt : x = t
          · exact Or.inl hxt
          · exact Or.inr ⟨hx, hxt, hs⟩

theorem mem_distinctKeys {x : String} {l : List String} :
    x ∈ distinctKeys l ↔ x ∈ l := by
  simp [distinctKeys, mem_distinctKeysAux]

theorem nodup_distinctKeysAux :
    ∀ (seen l : List String), (distinctKeysAux seen l).Nodup := by
  intro seen l
  induction l generalizing seen with
  | nil => simp [distinctKeysAux]
  | cons t ts ih =>
    simp only [distinctKeysAux]
    split_ifs with ht
    · exact ih seen
    · refine List.nodup_cons.mpr ⟨fun hmem => ?_, ih (t :: seen)⟩
      exact (mem_distinctKeysAux.mp hmem).2 (List.mem_cons_self t seen)

theorem nodup_distinctKeys (l : List String) : (distinctKeys l).Nodup :=
  nodup_distinctKeysAux [] l

theorem distinctKeys_perm_dedup (l : List String) :
    (distinctKeys l).Perm l.dedup := by
  refine (List.perm_ext_iff_of_nodup (nodup_distinctKeys l) l.nodup_dedup).mpr ?_
  intro a
  rw [mem_distinctKeys, List.mem_dedup]

/-! ### The comparison of `sorted(..., reverse=True)` is a total preorder -/

theorem resultGe_total : ∀ (a b : ℚ × String), resultGe a b ∨ resultGe b a := by
  intro a b
  rcases lt_trichotomy a.1 b.1 with h | h | h
  · exact Or.inr (Or.inl h)
  · rcases pyLtChars_total a.2.data b.2.data with hs | hs
    · exact Or.inl (Or.inr ⟨h, hs⟩)
    · exact Or.inr (Or.inr ⟨h.symm, hs⟩)
  · exact Or.inl (Or.inl h)

theorem resultGe_trans :
    ∀ (a b c : ℚ × String), resultGe a b → resultGe b c → resultGe a c := by
  rintro a b c (h1 | ⟨h1, h1s⟩) (h2 | ⟨h2, h2s⟩)
  · exact Or.inl (h2.trans h1)
  · exact Or.inl (by rw [← h2]; exact h1)
  · exact Or.inl (by rw [h1]; exact h2)
  · exact Or.inr ⟨h1.trans h2, pyLtChars_false_trans _ _ _ h1s h2s⟩

instance : IsTotal (ℚ × String) resultGe :=
  ⟨resultGe_total⟩

instance : IsTrans (ℚ × String) resultGe :=
  ⟨resultGe_trans⟩

/-- If `a` may sit before `b`, and their terms differ, then either `a`'s
score is strictly larger or the scores tie and `b`'s term is strictly
smaller in code-point order: the descending order is strict on pairs with
distinct terms. -/
theorem resultGe_strict {a b : ℚ × String} (h : resultGe a b) (hne : a.2 ≠ b.2) :
    b.1 < a.1 ∨ (a.1 = b.1 ∧ pyStrLt b.2 a.2 = true) := by
  rcases h with h | ⟨hq, hs⟩
  · exact Or.inl h
  · refine Or.inr ⟨hq, ?_⟩
    rcases Bool.eq_false_or_eq_true (pyStrLt b.2 a.2) with hba | hba
    · exact hba
    · exact absurd (String.ext (eq_of_pyLtChars_false_false hs hba)) hne

/-! ### Structure of a successful `try_model` result -/

theorem tryModel_ok_iff {dotF cosF : List ℚ → List ℚ → ℚ} {matchAlgo : String}
    {enc : String → List ℚ} {psg : List ℚ} {terms : List String}
    {r : List (ℚ × String)}
    (h : tryModel dotF cosF matchAlgo enc psg terms = Except.ok r) :
    ∃ matchFunc, (matchFunc = dotF ∨ matchFunc = cosF) ∧
      r = List.insertionSort resultGe
        ((distinctKeys terms).map (fun t => (matchFunc (enc t) psg, t))) := by
  unfold tryModel at h
  rcases ha : parseMatchAlgo matchAlgo with _ | a
  · rw [ha] at h
    exact absurd h (by simp)
  · rw [ha] at h
    cases a with
    | dot => exact ⟨dotF, Or.inl rfl, (Except.ok.injEq _ _ ▸ h).symm⟩
    | cosine => exact ⟨cosF, Or.inr rfl, (Except.ok.injEq _ _ ▸ h).symm⟩

theorem tryModel_ok_terms {dotF cosF : List ℚ → List ℚ → ℚ} {matchAlgo : String}
    {enc : String → List ℚ} {psg : List ℚ} {terms : List String}
    {r : List (ℚ × String)}
    (h : tryModel dotF cosF matchAlgo enc psg terms = Except.ok r) :
    (r.map Prod.snd).Perm (distinctKeys terms) := by
  obtain ⟨f, -, rfl⟩ := tryModel_ok_iff h
  have hp := (List.perm_insertionSort resultGe
    ((distinctKeys terms).map (fun t => (f (enc t) psg, t)))).map Prod.snd
  have he : ((distinctKeys terms).map (fun t => (f (enc t) psg, t))).map Prod.snd
      = distinctKeys terms := by
    rw [List.map_map]
    simp [Function.comp_def]
  rw [he] at hp
  exact hp

theorem tryModel_ok_sorted {dotF cosF : List ℚ → List ℚ → ℚ} {matchAlgo : String}
    {enc : String → List ℚ} {psg : List ℚ} {terms : List String}
    {r : List (ℚ × String)}
    (h : tryModel dotF cosF matchAlgo enc psg terms = Except.ok r) :
    r.Pairwise resultGe := by
  obtain ⟨f, -, rfl⟩ := tryModel_ok_iff h
  exact List.sorted_insertionSort resultGe _

theorem tryModel_ok_nodup {dotF cosF : List ℚ → List ℚ → ℚ} {matchAlgo : String}
    {enc : String → List ℚ} {psg : List ℚ} {terms : List String}
    {r : List (ℚ × String)}
    (h : tryModel dotF cosF matchAlgo enc psg terms = Except.ok r) :
    (r.map Prod.snd).Nodup :=
  (tryModel_ok_terms h).nodup_iff.mpr (nodup_distinctKeys terms)

/-! ### Decomposition of a successful engine query -/

theorem queryRun_ok {sc : List ℚ → List ℚ → ℚ} {e : Engine} {v : List ℚ}
    {k : ℕ} {res : List ResultEntry} {e2 : Engine}
    (h : queryRun sc e v k = Except.ok (res, e2)) :
    1 ≤ k ∧ v.length = e.dim ∧ e2 = e ∧
      res = (List.insertionSort scoreGe
        (e.records.map (fun r => ⟨r.rid, sc r.vec v, r.payload⟩))).take k := by
  unfold queryRun at h
  by_cases h1 : k < 1
  · rw [if_pos h1] at h
    exact absurd h (by simp)
  · rw [if_neg h1] at h
    by_cases h2 : v.length ≠ e.dim
    · rw [if_pos h2] at h
      exact absurd h (by simp)
    · rw [if_neg h2] at h
      simp only [Except.ok.injEq, Prod.mk.injEq] at h
      exact ⟨by omega, not_not.mp h2, h.2.symm, h.1.symm⟩

theorem query_ok {sc : List ℚ → List ℚ → ℚ} {e : Engine} {v : List ℚ}
    {k : ℕ} {mo : Option MatchAlgo} {res : List ResultEntry} {e2 : Engine}
    (h : query sc e v k mo = Except.ok (res, e2)) :
    (∀ m, mo = some m → m = e.metric) ∧ queryRun sc e v k = Except.ok (res, e2) := by
  cases mo with
  | none =>
    unfold query at h
    exact ⟨by simp, h⟩
  | some m =>
    simp only [query] at h
    by_cases hm : m ≠ e.metric
    · rw [if_pos hm] at h
      exact absurd h (by simp)
    · rw [if_neg hm] at h
      refine ⟨?_, h⟩
      intro m2 hm2
      cases hm2
      exact not_not.mp hm

/-! ### The claims -/

/-- C1, counterexample: with two search terms of exactly equal score, the
term inserted later (`"b"`) is returned before the term inserted earlier
(`"a"`): `sorted(..., reverse=True)` on `(score, term)` tuples breaks score
ties by the term string in descending order, not by insertion order. -/
theorem claim1_counterexample :
    tryModel dotScore dotScore ("dot") (fun _ => []) [] [("a"), ("b")]
      = Except.ok [(0, ("b")), (0, ("a"))] ∧
    ¬ insertionTieOrdered [("a"), ("b")] [(0, ("b")), (0, ("a"))] := by
  constructor
  · decide
  · intro hord
    rcases List.pairwise_cons.mp hord with ⟨hfirst, -⟩
    rcases hfirst _ (List.mem_singleton.mpr rfl) with h | ⟨-, h⟩
    · exact absurd h (by decide)
    · exact absurd h (by decide)

/-- C1 (amended): for every query the returned sequence is sorted strictly
descending by score, and entries whose scores are exactly equal are ordered
by their term string in descending code-point order (the later tuple
component decides ties, not insertion order); the result is deterministic
because `tryModel` is a function of its inputs. -/
theorem claim1_sorted_strict_desc {dotF cosF : List ℚ → List ℚ → ℚ}
    {matchAlgo : String} {enc : String → List ℚ} {psg : List ℚ}
    {terms : List String} {r : List (ℚ × String)}
    (h : tryModel dotF cosF matchAlgo enc psg terms = Except.ok r) :
    r.Pairwise strictDescTermTies := by
  have hs := tryModel_ok_sorted h
  have hn := tryModel_ok_nodup h
  have hne : r.Pairwise (fun a b => a.2 ≠ b.2) := List.pairwise_map.mp hn
  exact (hs.and hne).imp (fun hab => resultGe_strict hab.1 hab.2)

theorem claim1_witness :
    tryModel dotScore dotScore ("cosine") (fun _ => []) [] [("a"), ("b")]
      = Except.ok [(0, ("b")), (0, ("a"))] ∧
    ([((0 : ℚ), ("b")), (0, ("a"))]).Pairwise strictDescTermTies :=
  ⟨by decide,
    @claim1_sorted_strict_desc dotScore dotScore ("cosine") (fun _ => []) []
      [("a"), ("b")] [((0 : ℚ), ("b")), (0, ("a"))] (by decide)⟩

/-- C2: a successful query returns at most `k` results, and when the store
ids are pairwise distinct (the store invariant enforced by `insert`), the
returned ids are pairwise distinct as well. -/
theorem claim2_at_most_k_nodup {sc : List ℚ → List ℚ → ℚ} {e : Engine}
    {v : List ℚ} {k : ℕ} {mo : Option MatchAlgo} {res : List ResultEntry}
    {e2 : Engine}
    (hids : (e.records.map VectorRecord.rid).Nodup)
    (h : query sc e v k mo = Except.ok (res, e2)) :
    res.length ≤ k ∧ (res.map ResultEntry.rid).Nodup := by
  obtain ⟨-, hrun⟩ := query_ok h
  obtain ⟨-, -, -, hres⟩ := queryRun_ok hrun
  subst hres
  constructor
  · exact List.length_take_le _ _
  · have hperm := (List.perm_insertionSort scoreGe
      (e.records.map (fun r => ⟨r.rid, sc r.vec v, r.payload⟩))).map ResultEntry.rid
    have heq : ((e.records.map (fun r =>
        ResultEntry.mk r.rid (sc r.vec v) r.payload)).map ResultEntry.rid)
        = e.records.map VectorRecord.rid := by
      rw [List.map_map]
      rfl
    rw [heq] at hperm
    have hnod := hperm.nodup_iff.mpr hids
    rw [List.map_take]
    exact hnod.sublist (List.take_sublist _ _)

theorem claim2_witness :
    (([⟨("x"), [], ("px")⟩, ⟨("y"), [], ("py")⟩] :
        List VectorRecord).map VectorRecord.rid).Nodup ∧
    query dotScore ⟨MatchAlgo.dot, 0, [⟨("x"), [], ("px")⟩, ⟨("y"), [], ("py")⟩]⟩
        [] 1 none
      = Except.ok ([⟨("x"), 0, ("px")⟩],
        ⟨MatchAlgo.dot, 0, [⟨("x"), [], ("px")⟩, ⟨("y"), [], ("py")⟩]⟩) ∧
    (([⟨("x"), 0, ("px")⟩] : List ResultEntry).length ≤ 1 ∧
      (([⟨("x"), 0, ("px")⟩] : List ResultEntry).map ResultEntry.rid).Nodup) :=
  ⟨by decide, by decide,
    @claim2_at_most_k_nodup dotScore
      ⟨MatchAlgo.dot, 0, [⟨("x"), [], ("px")⟩, ⟨("y"), [], ("py")⟩]⟩ [] 1 none
      [⟨("x"), 0, ("px")⟩]
      ⟨MatchAlgo.dot, 0, [⟨("x"), [], ("px")⟩, ⟨("y"), [], ("py")⟩]⟩
      (by decide) (by decide)⟩

/-- C3: under the cosine metric a zero-norm argument yields the dedicated
`DegenerateVector` error — in particular no value at all, hence neither `0`
nor any other score — while the dot metric succeeds on the same input. -/
theorem claim3_cosine_degenerate (a b : List ℚ)
    (h : normSq a = 0 ∨ normSq b = 0) :
    cosineScore a b = Except.error MetricError.degenerateVector ∧
    (∀ r : ℝ, cosineScore a b ≠ Except.ok r) ∧
    dotScoreE a b = Except.ok (dotScore a b) := by
  have herr : cosineScore a b = Except.error MetricError.degenerateVector := by
    unfold cosineScore
    rw [if_pos h]
  refine ⟨herr, ?_, rfl⟩
  intro r hr
  rw [herr] at hr
  exact Except.noConfusion hr

theorem claim3_witness :
    (normSq [(0 : ℚ), 0] = 0 ∨ normSq [(1 : ℚ), 1] = 0) ∧
    (cosineScore [(0 : ℚ), 0] [(1 : ℚ), 1] = Except.error MetricError.degenerateVector ∧
      (∀ r : ℝ, cosineScore [(0 : ℚ), 0] [(1 : ℚ), 1] ≠ Except.ok r) ∧
      dotScoreE [(0 : ℚ), 0] [(1 : ℚ), 1]
        = Except.ok (dotScore [(0 : ℚ), 0] [(1 : ℚ), 1])) := by
  have hz : normSq [(0 : ℚ), 0] = 0 := by norm_num [normSq, dotScore]
  exact ⟨Or.inl hz, claim3_cosine_degenerate _ _ (Or.inl hz)⟩

/-- C4: the metric is fixed per engine instance — if a query naming metric
`m1` was answered, a query naming any other metric `m2` against the same
engine fails fast with an error instead of being answered. -/
theorem claim4_metric_fixed {sc : List ℚ → List ℚ → ℚ} {e : Engine}
    {v : List ℚ} {k : ℕ} {m1 m2 : MatchAlgo} {res : List ResultEntry}
    {e2 : Engine}
    (hne : m2 ≠ m1)
    (h : query sc e v k (some m1) = Except.ok (res, e2)) :
    query sc e v k (some m2) = Except.error EngineError.metricMismatch := by
  obtain ⟨hm, -⟩ := query_ok h
  have h1 : m1 = e.metric := hm m1 rfl
  simp only [query]
  rw [if_pos (by rw [← h1]; exact hne)]

theorem claim4_witness :
    MatchAlgo.cosine ≠ MatchAlgo.dot ∧
    query dotScore ⟨MatchAlgo.dot, 0, []⟩ [] 1 (some MatchAlgo.dot)
      = Except.ok ([], ⟨MatchAlgo.dot, 0, []⟩) ∧
    query dotScore ⟨MatchAlgo.dot, 0, []⟩ [] 1 (some MatchAlgo.cosine)
      = Except.error EngineError.metricMismatch :=
  ⟨by decide, by decide,
    @claim4_metric_fixed dotScore ⟨MatchAlgo.dot, 0, []⟩ [] 1
      MatchAlgo.dot MatchAlgo.cosine [] ⟨MatchAlgo.dot, 0, []⟩
      (by decide) (by decide)⟩

/-- C5: the query operation validates its request — `k < 1` fails with
`InvalidK`, and a query vector whose dimensionality differs from the
engine's fails with `DimensionMismatch`; an error carries no results. -/
theorem claim5_validation (sc : List ℚ → List ℚ → ℚ) (e : Engine)
    (v : List ℚ) (k : ℕ) :
    (k < 1 → query sc e v k none = Except.error EngineError.invalidK) ∧
    (1 ≤ k → v.length ≠ e.dim →
      query sc e v k none = Except.error EngineError.dimensionMismatch) := by
  constructor
  · intro hk
    simp only [query, queryRun]
    rw [if_pos hk]
  · intro hk hv
    simp only [query, queryRun]
    rw [if_neg (by omega), if_pos hv]

theorem claim5_witness :
    query dotScore ⟨MatchAlgo.dot, 2, []⟩ [0, 0] 0 none
      = Except.error EngineError.invalidK ∧
    query dotScore ⟨MatchAlgo.dot, 2, []⟩ [0] 1 none
      = Except.error EngineError.dimensionMismatch :=
  ⟨(claim5_validation dotScore ⟨MatchAlgo.dot, 2, []⟩ [0, 0] 0).1 (by decide),
    (claim5_validation dotScore ⟨MatchAlgo.dot, 2, []⟩ [0] 1).2 (by decide) (by decide)⟩

/-- C6: a query that matches nothing is not an error — on an empty store a
valid query returns the empty ranked sequence as a successful result, and
`try_model` on an empty term list likewise returns an empty result
successfully. -/
theorem claim6_empty_is_ok (sc : List ℚ → List ℚ → ℚ) (e : Engine)
    (v : List ℚ) (k : ℕ) (dotF cosF : List ℚ → List ℚ → ℚ)
    (matchAlgo : String) (a : MatchAlgo) (enc : String → List ℚ) (psg : List ℚ)
    (he : e.records = []) (hk : 1 ≤ k) (hv : v.length = e.dim)
    (ha : parseMatchAlgo matchAlgo = some a) :
    query sc e v k none = Except.ok ([], e) ∧
    tryModel dotF cosF matchAlgo enc psg [] = Except.ok [] := by
  constructor
  · simp only [query, queryRun]
    rw [if_neg (by omega), if_neg (by rw [hv]; exact fun hc => hc rfl), he]
    simp [List.insertionSort]
  · unfold tryModel
    rw [ha]
    cases a <;> rfl

theorem claim6_witness :
    (Engine.mk MatchAlgo.dot 0 []).records = [] ∧ 1 ≤ 1 ∧
    (List.length ([] : List ℚ) = (Engine.mk MatchAlgo.dot 0 []).dim) ∧
    parseMatchAlgo ("dot") = some MatchAlgo.dot ∧
    (query dotScore ⟨MatchAlgo.dot, 0, []⟩ [] 1 none
        = Except.ok ([], ⟨MatchAlgo.dot, 0, []⟩) ∧
      tryModel dotScore dotScore ("dot") (fun _ => []) [] []
        = Except.ok []) :=
  ⟨rfl, by decide, by decide, by decide,
    claim6_empty_is_ok dotScore ⟨MatchAlgo.dot, 0, []⟩ [] 1 dotScore dotScore
      ("dot") MatchAlgo.dot (fun _ => []) [] rfl (by decide) (by decide) (by decide)⟩

/-- C7: the query path is read-only — a successful query returns the
engine state (store records and configuration) unchanged; only `insert`
and its kin produce a new state. -/
theorem claim7_query_readonly {sc : List ℚ → List ℚ → ℚ} {e : Engine}
    {v : List ℚ} {k : ℕ} {mo : Option MatchAlgo} {res : List ResultEntry}
    {e2 : Engine}
    (h : query sc e v k mo = Except.ok (res, e2)) :
    e2 = e :=
  (queryRun_ok (query_ok h).2).2.2.1

theorem claim7_witness :
    query dotScore ⟨MatchAlgo.dot, 0, [⟨("x"), [], ("px")⟩]⟩ [] 3 none
      = Except.ok ([⟨("x"), 0, ("px")⟩], ⟨MatchAlgo.dot, 0, [⟨("x"), [], ("px")⟩]⟩) ∧
    (⟨MatchAlgo.dot, 0, [⟨("x"), [], ("px")⟩]⟩ : Engine)
      = ⟨MatchAlgo.dot, 0, [⟨("x"), [], ("px")⟩]⟩ :=
  ⟨by decide,
    @claim7_query_readonly dotScore ⟨MatchAlgo.dot, 0, [⟨("x"), [], ("px")⟩]⟩
      [] 3 none [⟨("x"), 0, ("px")⟩] ⟨MatchAlgo.dot, 0, [⟨("x"), [], ("px")⟩]⟩
      (by decide)⟩

/-- C8: a metric name whose lowercased form is neither `dot` nor `cosine`
makes `try_model` raise `ValueError("Invalid Match Function!")` and produce
no result sequence. -/
theorem claim8_invalid_metric (dotF cosF : List ℚ → List ℚ → ℚ)
    (matchAlgo : String) (enc : String → List ℚ) (psg : List ℚ)
    (terms : List String)
    (h1 : pyLower matchAlgo ≠ ("dot")) (h2 : pyLower matchAlgo ≠ ("cosine")) :
    tryModel dotF cosF matchAlgo enc psg terms
      = Except.error NotebookError.invalidMatchFunction := by
  unfold tryModel parseMatchAlgo
  rw [if_neg h1, if_neg h2]

theorem claim8_witness :
    pyLower ("l2") ≠ ("dot") ∧ pyLower ("l2") ≠ ("cosine") ∧
    tryModel dotScore dotScore ("l2") (fun _ => []) [] [("a")]
      = Except.error NotebookError.invalidMatchFunction :=
  ⟨by decide, by decide,
    claim8_invalid_metric dotScore dotScore ("l2") (fun _ => []) [] [("a")]
      (by decide) (by decide)⟩

/-- C9: duplicate query terms are collapsed — a successful `try_model`
result carries each term at most once, contains exactly the distinct input
terms, and its length is the number of distinct input terms. -/
theorem claim9_duplicates_collapsed {dotF cosF : List ℚ → List ℚ → ℚ}
    {matchAlgo : String} {enc : String → List ℚ} {psg : List ℚ}
    {terms : List String} {r : List (ℚ × String)}
    (h : tryModel dotF cosF matchAlgo enc psg terms = Except.ok r) :
    (r.map Prod.snd).Nodup ∧ (∀ t, t ∈ r.map Prod.snd ↔ t ∈ terms) ∧
      r.length = terms.dedup.length := by
  have hperm := tryModel_ok_terms h
  refine ⟨tryModel_ok_nodup h, fun t => ?_, ?_⟩
  · rw [hperm.mem_iff, mem_distinctKeys]
  · have hlen := hperm.length_eq
    rw [List.length_map] at hlen
    rw [hlen, (distinctKeys_perm_dedup terms).length_eq]

theorem claim9_witness :
    tryModel dotScore dotScore ("dot") (fun _ => []) [] [("a"), ("a"), ("b")]
      = Except.ok [(0, ("b")), (0, ("a"))] ∧
    ((([((0 : ℚ), ("b")), (0, ("a"))]).map Prod.snd).Nodup ∧
      (∀ t, t ∈ ([((0 : ℚ), ("b")), (0, ("a"))]).map Prod.snd ↔
        t ∈ [("a"), ("a"), ("b")]) ∧
      ([((0 : ℚ), ("b")), (0, ("a"))]).length
        = ([("a"), ("a"), ("b")] : List String).dedup.length) :=
  ⟨by decide,
    @claim9_duplicates_collapsed dotScore dotScore ("dot") (fun _ => []) []
      [("a"), ("a"), ("b")] [((0 : ℚ), ("b")), (0, ("a"))] (by decide)⟩

/-- C10: metric-name selection is case-insensitive — `try_model` behaves
identically on a metric name and on its lowercased form, because the
dispatch only inspects the lowercased name and lowercasing is
idempotent. -/
theorem claim10_case_insensitive (dotF cosF : List ℚ → List ℚ → ℚ)
    (matchAlgo : String) (enc : String → List ℚ) (psg : List ℚ)
    (terms : List String) :
    tryModel dotF cosF (pyLower matchAlgo) enc psg terms
      = tryModel dotF cosF matchAlgo enc psg terms := by
  unfold tryModel
  have hp : parseMatchAlgo (pyLower matchAlgo) = parseMatchAlgo matchAlgo := by
    unfold parseMatchAlgo
    rw [pyLower_idem]
  rw [hp]

end SemanticSearch
